import Mathlib

/-!
Verification of the Generate-Diagram repository: a shallow embedding of the
storage layer (shared schema, `MemStorage`, `DbStorage`, `createStorage`) and
of the client diagram-workflow pages (`diagram-generator.tsx`,
`project-detail.tsx`), together with theorems settling the frozen claims
about them.

Timestamps are modelled as natural numbers (the code only compares them with
`getTime()` subtraction); the JavaScript `Map` objects of `MemStorage` are
modelled as insertion-ordered lists with `Map.set` / `Map.delete` semantics;
the relational tables of `DbStorage` are modelled as row lists with the
serial id allocation documented in the repository's database setup guide.
-/

namespace DiagramGen

/-! ## Shared schema (shared/schema.ts)

`projects` table: id (integer primary key), name (text, not null),
description (text, nullable), created_at (timestamp, not null).
`diagrams` table: id, project_id, name, diagram_type, format, code,
image_data, created_at.  Insert types omit `id` and `createdAt`. -/

/-- Row of the `projects` table / value of `MemStorage.projects`. -/
structure Project where
  id : Nat
  name : String
  description : Option String
  createdAt : Nat
deriving DecidableEq

/-- Insertable subset of `Project` (drizzle-zod `insertProjectSchema`):
`name` required, `description` optional/nullable (`none` models both the
omitted field and an explicit null, which `MemStorage.createProject`
collapses with `?? null`). -/
structure InsertProject where
  name : String
  description : Option String
deriving DecidableEq

/-- A `Partial<InsertProject>` update payload: each field is either absent
(`none`) or supplies a value.  A supplied `description` may itself be null. -/
structure ProjectUpdate where
  name : Option String
  description : Option (Option String)
deriving DecidableEq

/-- Row of the `diagrams` table / value of `MemStorage.diagrams`.
`diagramType` and `format` are text columns in the schema, so they are
modelled as strings. -/
structure Diagram where
  id : Nat
  projectId : Nat
  name : String
  diagramType : String
  format : String
  code : String
  imageData : String
  createdAt : Nat
deriving DecidableEq

/-- Insertable subset of `Diagram` (`insertDiagramSchema` omits `id` and
`createdAt`; every remaining column is not-null). -/
structure InsertDiagram where
  projectId : Nat
  name : String
  diagramType : String
  format : String
  code : String
  imageData : String
deriving DecidableEq

/-- A `Partial<InsertDiagram>` update payload. -/
structure DiagramUpdate where
  projectId : Option Nat
  name : Option String
  diagramType : Option String
  format : Option String
  code : Option String
  imageData : Option String
deriving DecidableEq

/-- Shallow merge `{...project, ...updates}` used by both backends'
`updateProject` (spread for `MemStorage`, SQL `SET` for `DbStorage`):
supplied fields overwrite, absent fields keep the stored value; `id` and
`createdAt` cannot appear in a `Partial<InsertProject>`. -/
def applyProjectUpdate (p : Project) (u : ProjectUpdate) : Project :=
  { p with
    name := u.name.getD p.name
    description := u.description.getD p.description }

/-- Shallow merge `{...diagram, ...updates}` for diagram updates. -/
def applyDiagramUpdate (d : Diagram) (u : DiagramUpdate) : Diagram :=
  { d with
    projectId := u.projectId.getD d.projectId
    name := u.name.getD d.name
    diagramType := u.diagramType.getD d.diagramType
    format := u.format.getD d.format
    code := u.code.getD d.code
    imageData := u.imageData.getD d.imageData }

/-- Comparator `(a, b) => b.createdAt.getTime() - a.createdAt.getTime()`:
`a` may precede `b` when `b.createdAt ≤ a.createdAt` (descending). -/
def projectDesc (a b : Project) : Prop := b.createdAt ≤ a.createdAt

instance : DecidableRel projectDesc := fun a b =>
  inferInstanceAs (Decidable (b.createdAt ≤ a.createdAt))

instance : IsTotal Project projectDesc :=
  ⟨fun a b => Nat.le_total b.createdAt a.createdAt⟩

instance : IsTrans Project projectDesc :=
  ⟨fun _ _ _ h1 h2 => Nat.le_trans h2 h1⟩

/-- Descending-`createdAt` comparator for diagrams. -/
def diagramDesc (a b : Diagram) : Prop := b.createdAt ≤ a.createdAt

instance : DecidableRel diagramDesc := fun a b =>
  inferInstanceAs (Decidable (b.createdAt ≤ a.createdAt))

instance : IsTotal Diagram diagramDesc :=
  ⟨fun a b => Nat.le_total b.createdAt a.createdAt⟩

instance : IsTrans Diagram diagramDesc :=
  ⟨fun _ _ _ h1 h2 => Nat.le_trans h2 h1⟩

/-- JavaScript's `Array.prototype.sort` is stable, so the sorted views both
backends return are modelled by a stable sort under the descending
comparator. -/
def sortProjects (l : List Project) : List Project :=
  l.insertionSort projectDesc

/-- Stable descending sort for diagram lists. -/
def sortDiagrams (l : List Diagram) : List Diagram :=
  l.insertionSort diagramDesc

/-! ## Backend state

`MemStorage` holds `Map<number, Project>`, `Map<number, Diagram>` and the
counters `nextProjectId` / `nextDiagramId` (both starting at 1).  A
JavaScript `Map` iterates in insertion order, so each map is modelled as a
list of records in insertion order, keyed by the `id` field.  The durable
backend's tables are modelled the same way: row lists plus the serial
sequences the setup guide documents for the two `id` columns. -/

structure Store where
  projects : List Project
  diagrams : List Diagram
  nextProjectId : Nat
  nextDiagramId : Nat
deriving DecidableEq

/-- Fresh backend: empty maps/tables, both id counters at 1. -/
def Store.init : Store := ⟨[], [], 1, 1⟩

/-- `Map.set(id, v)` on an insertion-ordered projects map: replace in place
when the key exists, append otherwise. -/
def setProject (l : List Project) (id : Nat) (v : Project) : List Project :=
  if l.any (fun p => p.id = id) then
    l.map (fun p => if p.id = id then v else p)
  else l ++ [v]

/-- `Map.set(id, v)` on the diagrams map. -/
def setDiagram (l : List Diagram) (id : Nat) (v : Diagram) : List Diagram :=
  if l.any (fun d => d.id = id) then
    l.map (fun d => if d.id = id then v else d)
  else l ++ [v]

/-! ## MemStorage (server/storage.ts lines 27-134) -/

/-- `MemStorage.getAllProjects`: values in insertion order, sorted by
descending `createdAt`. -/
def memGetAllProjects (s : Store) : List Project :=
  sortProjects s.projects

/-- `MemStorage.getProject`: `this.projects.get(id)`. -/
def memGetProject (s : Store) (id : Nat) : Option Project :=
  s.projects.find? (fun p => p.id = id)

/-- `MemStorage.createProject`: allocate `nextProjectId++`, build the record
with `description ?? null` and a fresh timestamp, store it, return it. -/
def memCreateProject (s : Store) (data : InsertProject) (now : Nat) :
    Store × Project :=
  let id := s.nextProjectId
  let p : Project :=
    { id := id, name := data.name, description := data.description,
      createdAt := now }
  ({ s with projects := setProject s.projects id p,
            nextProjectId := s.nextProjectId + 1 }, p)

/-- `MemStorage.updateProject`: look the record up; absent id returns
`undefined` with no mutation; otherwise store and return the shallow
merge. -/
def memUpdateProject (s : Store) (id : Nat) (u : ProjectUpdate) :
    Store × Option Project :=
  match s.projects.find? (fun p => p.id = id) with
  | none => (s, none)
  | some p =>
      let updated := applyProjectUpdate p u
      ({ s with projects := setProject s.projects id updated }, some updated)

/-- `MemStorage.deleteProject`: `Map.delete` the project (recording whether
it existed), and only on success delete every diagram whose `projectId`
matches; return the deletion flag. -/
def memDeleteProject (s : Store) (id : Nat) : Store × Bool :=
  let deleted := s.projects.any (fun p => p.id = id)
  let s1 := { s with projects := s.projects.filter (fun p => p.id ≠ id) }
  if deleted then
    ({ s1 with diagrams := s1.diagrams.filter (fun d => d.projectId ≠ id) },
     true)
  else (s1, false)

/-- `MemStorage.getDiagramsByProject`: filter by exact `projectId`, sort by
descending `createdAt`. -/
def memGetDiagramsByProject (s : Store) (pid : Nat) : List Diagram :=
  sortDiagrams (s.diagrams.filter (fun d => d.projectId = pid))

/-- `MemStorage.getDiagram`: `this.diagrams.get(id)`. -/
def memGetDiagram (s : Store) (id : Nat) : Option Diagram :=
  s.diagrams.find? (fun d => d.id = id)

/-- `MemStorage.createDiagram`: allocate `nextDiagramId++`, build the record
with a fresh timestamp, store it, return it. -/
def memCreateDiagram (s : Store) (data : InsertDiagram) (now : Nat) :
    Store × Diagram :=
  let id := s.nextDiagramId
  let d : Diagram :=
    { id := id, projectId := data.projectId, name := data.name,
      diagramType := data.diagramType, format := data.format,
      code := data.code, imageData := data.imageData, createdAt := now }
  ({ s with diagrams := setDiagram s.diagrams id d,
            nextDiagramId := s.nextDiagramId + 1 }, d)

/-- `MemStorage.updateDiagram`: absent id returns `undefined`; otherwise
store and return the shallow merge. -/
def memUpdateDiagram (s : Store) (id : Nat) (u : DiagramUpdate) :
    Store × Option Diagram :=
  match s.diagrams.find? (fun d => d.id = id) with
  | none => (s, none)
  | some d =>
      let updated := applyDiagramUpdate d u
      ({ s with diagrams := setDiagram s.diagrams id updated }, some updated)

/-- `MemStorage.deleteDiagram`: `return this.diagrams.delete(id)`. -/
def memDeleteDiagram (s : Store) (id : Nat) : Store × Bool :=
  ({ s with diagrams := s.diagrams.filter (fun d => d.id ≠ id) },
   s.diagrams.any (fun d => d.id = id))

/-! ## DbStorage (server/storage.ts lines 136-230)

Each method issues one SQL statement against the row lists.  `SELECT ...
ORDER BY created_at DESC` is modelled with the same stable descending sort
(the spec allows ties to be broken arbitrarily; the model fixes insertion
order).  `INSERT ... RETURNING` allocates the next serial id, per the
repository's database setup guide ("id (serial) - Auto-incrementing primary
key"). -/

/-- `DbStorage.getAllProjects`: `select().from(projects).orderBy(desc(createdAt))`. -/
def dbGetAllProjects (s : Store) : List Project :=
  sortProjects s.projects

/-- `DbStorage.getProject`: `select ... where id = ? limit 1`, then `result[0]`. -/
def dbGetProject (s : Store) (id : Nat) : Option Project :=
  ((s.projects.filter (fun p => p.id = id)).take 1).head?

/-- `DbStorage.createProject`: `insert ... values(insertProject) returning`;
the serial sequence supplies the id, `created_at` defaults to now. -/
def dbCreateProject (s : Store) (data : InsertProject) (now : Nat) :
    Store × Project :=
  let p : Project :=
    { id := s.nextProjectId, name := data.name,
      description := data.description, createdAt := now }
  ({ s with projects := s.projects ++ [p],
            nextProjectId := s.nextProjectId + 1 }, p)

/-- `DbStorage.updateProject`: `update ... set(updates) where id = ?
returning`, then `result[0]`: every matching row is overwritten by its own
shallow merge and the merged rows are returned. -/
def dbUpdateProject (s : Store) (id : Nat) (u : ProjectUpdate) :
    Store × Option Project :=
  let rows := s.projects.map
    (fun p => if p.id = id then applyProjectUpdate p u else p)
  let returning := (s.projects.filter (fun p => p.id = id)).map
    (fun p => applyProjectUpdate p u)
  ({ s with projects := rows }, returning.head?)

/-- `DbStorage.deleteProject`: first `delete from diagrams where project_id
= ?` (unconditionally), then `delete from projects where id = ? returning`;
report whether any project row was returned. -/
def dbDeleteProject (s : Store) (id : Nat) : Store × Bool :=
  let diagrams := s.diagrams.filter (fun d => d.projectId ≠ id)
  let returning := s.projects.filter (fun p => p.id = id)
  ({ s with projects := s.projects.filter (fun p => p.id ≠ id),
            diagrams := diagrams },
   decide (0 < returning.length))

/-- `DbStorage.getDiagramsByProject`: `select ... where project_id = ?
orderBy(desc(createdAt))`. -/
def dbGetDiagramsByProject (s : Store) (pid : Nat) : List Diagram :=
  sortDiagrams (s.diagrams.filter (fun d => d.projectId = pid))

/-- `DbStorage.getDiagram`: `select ... where id = ? limit 1`, `result[0]`. -/
def dbGetDiagram (s : Store) (id : Nat) : Option Diagram :=
  ((s.diagrams.filter (fun d => d.id = id)).take 1).head?

/-- `DbStorage.createDiagram`: `insert ... returning` with serial id. -/
def dbCreateDiagram (s : Store) (data : InsertDiagram) (now : Nat) :
    Store × Diagram :=
  let d : Diagram :=
    { id := s.nextDiagramId, projectId := data.projectId, name := data.name,
      diagramType := data.diagramType, format := data.format,
      code := data.code, imageData := data.imageData, createdAt := now }
  ({ s with diagrams := s.diagrams ++ [d],
            nextDiagramId := s.nextDiagramId + 1 }, d)

/-- `DbStorage.updateDiagram`: `update ... set(updates) where id = ?
returning`, `result[0]`. -/
def dbUpdateDiagram (s : Store) (id : Nat) (u : DiagramUpdate) :
    Store × Option Diagram :=
  let rows := s.diagrams.map
    (fun d => if d.id = id then applyDiagramUpdate d u else d)
  let returning := (s.diagrams.filter (fun d => d.id = id)).map
    (fun d => applyDiagramUpdate d u)
  ({ s with diagrams := rows }, returning.head?)

/-- `DbStorage.deleteDiagram`: `delete ... where id = ? returning`, report
`result.length > 0`. -/
def dbDeleteDiagram (s : Store) (id : Nat) : Store × Bool :=
  let returning := s.diagrams.filter (fun d => d.id = id)
  ({ s with diagrams := s.diagrams.filter (fun d => d.id ≠ id) },
   decide (0 < returning.length))

/-! ## The storage contract as a transition system

One call of the `IStorage` contract (the project/diagram methods and the two
list operations; the unused user methods are outside every claim).  Creation
calls carry the clock value both backends read (`new Date()` /
`defaultNow()`). -/

inductive Op where
  | createProject (data : InsertProject) (now : Nat)
  | getProject (id : Nat)
  | getAllProjects
  | updateProject (id : Nat) (u : ProjectUpdate)
  | deleteProject (id : Nat)
  | createDiagram (data : InsertDiagram) (now : Nat)
  | getDiagram (id : Nat)
  | getDiagramsByProject (pid : Nat)
  | updateDiagram (id : Nat) (u : DiagramUpdate)
  | deleteDiagram (id : Nat)
deriving DecidableEq

/-- Observable result of one storage-contract call. -/
inductive Out where
  | proj (p : Project)
  | projOpt (p : Option Project)
  | projList (l : List Project)
  | diag (d : Diagram)
  | diagOpt (d : Option Diagram)
  | diagList (l : List Diagram)
  | flag (b : Bool)
deriving DecidableEq

/-- Dispatch one contract call to the `MemStorage` methods. -/
def memStep (s : Store) : Op → Store × Out
  | .createProject data now =>
      let r := memCreateProject s data now; (r.1, .proj r.2)
  | .getProject id => (s, .projOpt (memGetProject s id))
  | .getAllProjects => (s, .projList (memGetAllProjects s))
  | .updateProject id u =>
      let r := memUpdateProject s id u; (r.1, .projOpt r.2)
  | .deleteProject id =>
      let r := memDeleteProject s id; (r.1, .flag r.2)
  | .createDiagram data now =>
      let r := memCreateDiagram s data now; (r.1, .diag r.2)
  | .getDiagram id => (s, .diagOpt (memGetDiagram s id))
  | .getDiagramsByProject pid => (s, .diagList (memGetDiagramsByProject s pid))
  | .updateDiagram id u =>
      let r := memUpdateDiagram s id u; (r.1, .diagOpt r.2)
  | .deleteDiagram id =>
      let r := memDeleteDiagram s id; (r.1, .flag r.2)

/-- Dispatch one contract call to the `DbStorage` methods. -/
def dbStep (s : Store) : Op → Store × Out
  | .createProject data now =>
      let r := dbCreateProject s data now; (r.1, .proj r.2)
  | .getProject id => (s, .projOpt (dbGetProject s id))
  | .getAllProjects => (s, .projList (dbGetAllProjects s))
  | .updateProject id u =>
      let r := dbUpdateProject s id u; (r.1, .projOpt r.2)
  | .deleteProject id =>
      let r := dbDeleteProject s id; (r.1, .flag r.2)
  | .createDiagram data now =>
      let r := dbCreateDiagram s data now; (r.1, .diag r.2)
  | .getDiagram id => (s, .diagOpt (dbGetDiagram s id))
  | .getDiagramsByProject pid => (s, .diagList (dbGetDiagramsByProject s pid))
  | .updateDiagram id u =>
      let r := dbUpdateDiagram s id u; (r.1, .diagOpt r.2)
  | .deleteDiagram id =>
      let r := dbDeleteDiagram s id; (r.1, .flag r.2)

/-- Observable results of a call sequence against `MemStorage`. -/
def runMem (s : Store) : List Op → List Out
  | [] => []
  | op :: ops =>
      let r := memStep s op
      r.2 :: runMem r.1 ops

/-- Observable results of a call sequence against `DbStorage`. -/
def runDb (s : Store) : List Op → List Out
  | [] => []
  | op :: ops =>
      let r := dbStep s op
      r.2 :: runDb r.1 ops

/-- A call is cascade-safe in a state when it is not a `deleteProject` of an
absent project id that stored diagrams still reference (the one situation
where the two backends' cascade behaviour diverges). -/
def cascadeSafe (s : Store) : Op → Bool
  | .deleteProject id =>
      s.projects.any (fun p => p.id = id) ||
        s.diagrams.all (fun d => d.projectId != id)
  | _ => true

/-- A call sequence is cascade-safe when every call is cascade-safe in the
state it executes in. -/
def safeTrace (s : Store) : List Op → Bool
  | [] => true
  | op :: ops => cascadeSafe s op && safeTrace (memStep s op).1 ops

/-! ## Storage selector (server/storage.ts `createStorage`, server/db.ts)

`createStorage` branches on the truthiness of `process.env.DATABASE_URL`:
a missing variable and the empty string are both falsy.  The durable branch
imports `./db`, whose module body throws when `DATABASE_URL` is falsy; the
volatile branch never loads that module. -/

inductive StorageChoice where
  | durable
  | volatile
deriving DecidableEq

/-- JavaScript truthiness of an optional environment string: unset and `""`
are falsy, every other string is truthy. -/
def envTruthy : Option String → Bool
  | none => false
  | some s => !(s == "")

/-- Guard at the top of `server/db.ts`: throw when `DATABASE_URL` is
falsy, otherwise construct the drizzle handle. -/
def dbModule (url : Option String) : Except String Unit :=
  if envTruthy url then .ok ()
  else .error "DATABASE_URL environment variable is not set"

/-- `createStorage`: truthy `DATABASE_URL` loads `./db` (running its guard)
and constructs `DbStorage`; otherwise it constructs `MemStorage`. -/
def createStorage (url : Option String) : Except String StorageChoice :=
  if envTruthy url then (dbModule url).map (fun _ => StorageChoice.durable)
  else .ok .volatile

/-! ## Client diagram workflow

Both editor pages keep the same `useState` fields; the `project-detail`
page adds the diagram name, the selection and the editing flag.  The TS
union types `DiagramType` / `FormatType` are erased at runtime, and
`handleViewDiagram` copies the stored strings with an unchecked cast, so
the client state holds plain strings.  The transient `isGenerating` gate is
`false` before a handler can run and restored to `false` in its `finally`
block, so it is not part of the observable state. -/

inductive DiagramType where
  | mermaid
  | graphviz
  | bpmn
  | excalidraw
deriving DecidableEq

/-- Runtime string value of a diagram-type button. -/
def DiagramType.str : DiagramType → String
  | .mermaid => "mermaid"
  | .graphviz => "graphviz"
  | .bpmn => "bpmn"
  | .excalidraw => "excalidraw"

/-- `defaultExamples` record: canonical example code per diagram type. -/
def defaultExamples : DiagramType → String
  | .mermaid =>
      "sequenceDiagram\n    participant Alice\n    participant Bob\n    Bob->>Alice: Hi Alice\n    Alice->>Bob: Hi Bob"
  | .graphviz => "digraph G \x7b\n    A -> B;\n    B -> C;\n    C -> A;\n\x7d"
  | .bpmn =>
      "<?xml version=\"1.0\" encoding=\"UTF-8\"?>\n<definitions xmlns=\"http://www.omg.org/spec/BPMN/20100524/MODEL\">\n  <process id=\"Process_1\">\n    <startEvent id=\"StartEvent_1\"/>\n  </process>\n</definitions>"
  | .excalidraw =>
      "\x7b\n  \"type\": \"rectangle\",\n  \"x\": 100,\n  \"y\": 100,\n  \"width\": 200,\n  \"height\": 100\n\x7d"

/-- Workflow state of `diagram-generator.tsx` (stand-alone editor). -/
structure GenState where
  diagramType : String
  format : String
  code : String
  generatedImage : Option String
  zoom : Int
deriving DecidableEq

/-- Initial `useState` values of the stand-alone editor. -/
def GenState.init : GenState :=
  { diagramType := "mermaid", format := "svg",
    code := defaultExamples .mermaid, generatedImage := none, zoom := 100 }

/-- Workflow state of `project-detail.tsx` (per-project editor). -/
structure PDState where
  diagramType : String
  format : String
  code : String
  diagramName : String
  isEditing : Bool
  generatedImage : Option String
  zoom : Int
  selectedDiagram : Option Diagram
deriving DecidableEq

/-- Initial `useState` values of the per-project editor. -/
def PDState.init : PDState :=
  { diagramType := "mermaid", format := "svg",
    code := defaultExamples .mermaid, diagramName := "", isEditing := false,
    generatedImage := none, zoom := 100, selectedDiagram := none }

/-- Result of one attempt to reach the rendering service: an object URL for
the returned image, or the error message of a non-ok response / network
failure. -/
def RenderResult : Type := Except String String

/-- Guard `!code.trim()` of both `handleGenerate` handlers: `trim` removes
leading and trailing whitespace, so the trimmed string is empty — the only
falsy string — exactly when every character of the draft is whitespace. -/
def blankCode (code : String) : Bool := code.data.all Char.isWhitespace

/-- `handleGenerate` of `diagram-generator.tsx`: blank (whitespace-only)
code short-circuits with an error toast and no request; otherwise the
render call either replaces the preview or surfaces its error, leaving
every field unchanged.  The second component records whether a request was
issued to the rendering service. -/
def genHandleGenerate (s : GenState) (render : RenderResult) :
    GenState × Bool × Option String :=
  if blankCode s.code then (s, false, some "Please enter diagram code")
  else
    match render with
    | .error e => (s, true, some e)
    | .ok img => ({ s with generatedImage := some img }, true, none)

/-- `handleGenerate` of `project-detail.tsx` (same control flow; on success
it additionally revokes the previous object URL, which does not change any
state field). -/
def pdHandleGenerate (s : PDState) (render : RenderResult) :
    PDState × Bool × Option String :=
  if blankCode s.code then (s, false, some "Please enter diagram code")
  else
    match render with
    | .error e => (s, true, some e)
    | .ok img => ({ s with generatedImage := some img }, true, none)

/-- `handleZoomIn` (both pages): `setZoom(prev => Math.min(prev + 25, 300))`. -/
def genHandleZoomIn (s : GenState) : GenState :=
  { s with zoom := min (s.zoom + 25) 300 }

/-- `handleZoomOut` (both pages): `setZoom(prev => Math.max(prev - 25, 25))`. -/
def genHandleZoomOut (s : GenState) : GenState :=
  { s with zoom := max (s.zoom - 25) 25 }

/-- `handleZoomReset` (both pages): `setZoom(100)`. -/
def genHandleZoomReset (s : GenState) : GenState :=
  { s with zoom := 100 }

/-- `handleZoomIn` on the per-project editor. -/
def pdHandleZoomIn (s : PDState) : PDState :=
  { s with zoom := min (s.zoom + 25) 300 }

/-- `handleZoomOut` on the per-project editor. -/
def pdHandleZoomOut (s : PDState) : PDState :=
  { s with zoom := max (s.zoom - 25) 25 }

/-- `handleZoomReset` on the per-project editor. -/
def pdHandleZoomReset (s : PDState) : PDState :=
  { s with zoom := 100 }

/-- `handleViewDiagram`: hydrate every workflow field from the persisted
record, reset zoom to 100, leave editing mode off. -/
def pdHandleViewDiagram (s : PDState) (d : Diagram) : PDState :=
  { s with selectedDiagram := some d, diagramType := d.diagramType,
           format := d.format, code := d.code, diagramName := d.name,
           generatedImage := some d.imageData, zoom := 100,
           isEditing := false }

/-- `handleEditDiagram`: hydrate like view, but enter editing mode. -/
def pdHandleEditDiagram (s : PDState) (d : Diagram) : PDState :=
  { s with selectedDiagram := some d, diagramType := d.diagramType,
           format := d.format, code := d.code, diagramName := d.name,
           generatedImage := some d.imageData, zoom := 100,
           isEditing := true }

/-- `handleAddDiagram`: clear the workflow for a fresh diagram and reset
zoom to 100. -/
def pdHandleAddDiagram (s : PDState) : PDState :=
  { s with selectedDiagram := none, diagramType := "mermaid",
           format := "png", code := "", diagramName := "",
           generatedImage := some "", zoom := 100, isEditing := false }

/-- Zoom invariant stated by the spec: an integer percentage that is a
multiple of 25 within `[25, 300]`. -/
def zoomInv (z : Int) : Prop := 25 ∣ z ∧ 25 ≤ z ∧ z ≤ 300

instance : DecidablePred zoomInv := fun z =>
  inferInstanceAs (Decidable (25 ∣ z ∧ 25 ≤ z ∧ z ≤ 300))

/-- Well-formedness every backend state reachable from `Store.init`
satisfies: stored ids stay below the allocation counters and are
duplicate-free.  (A JavaScript `Map` / a primary-key column cannot hold two
records under one id.) -/
def Store.wf (s : Store) : Prop :=
  (∀ p ∈ s.projects, p.id < s.nextProjectId) ∧
  (∀ d ∈ s.diagrams, d.id < s.nextDiagramId) ∧
  (s.projects.map Project.id).Nodup ∧
  (s.diagrams.map Diagram.id).Nodup

/-- Call sequence exercising every contract operation on which the two
backends are claimed equivalent, with the `deleteProject` aimed at an
existing project. -/
def c1SafeOps : List Op :=
  [.createProject ⟨"Demo", none⟩ 5,
   .getAllProjects,
   .createDiagram ⟨1, "Flow", "mermaid", "svg", "seq", "data:img"⟩ 6,
   .createDiagram ⟨1, "Net", "graphviz", "png", "dg", "data:img2"⟩ 7,
   .getDiagramsByProject 1,
   .updateProject 1 ⟨none, some (some "x")⟩,
   .updateDiagram 1 ⟨none, none, none, none, some "new code", none⟩,
   .getDiagram 1,
   .deleteDiagram 2,
   .deleteProject 1,
   .getDiagram 1,
   .getAllProjects]

/-- Call sequence on which the two backends observably diverge: a diagram
referencing project id 1 is created while no such project exists, then
`deleteProject 1` is issued. -/
def c1DivergeOps : List Op :=
  [.createDiagram ⟨1, "orphan", "mermaid", "svg", "c", "i"⟩ 0,
   .deleteProject 1,
   .getDiagram 1]

end DiagramGen

namespace DiagramGen

/-! ## Helper lemmas -/

theorem head?_take_one {α : Type} (xs : List α) :
    (xs.take 1).head? = xs.head? := by
  cases xs <;> rfl

theorem find?_eq_filter_head? {α : Type} (p : α → Bool) (l : List α) :
    l.find? p = (l.filter p).head? := by
  induction l with
  | nil => rfl
  | cons a l ih =>
      cases h : p a with
      | true => rw [List.find?_cons_of_pos _ h, List.filter_cons_of_pos h]; rfl
      | false =>
          rw [List.find?_cons_of_neg _ (by simp [h]),
            List.filter_cons_of_neg (by simp [h]), ih]

theorem decide_pos_filter_length {α : Type} (p : α → Bool) (l : List α) :
    decide (0 < (l.filter p).length) = l.any p := by
  induction l with
  | nil => rfl
  | cons a l ih =>
      cases h : p a <;> simp [List.filter_cons, h, ← ih]

theorem key_inj_of_nodup {α β : Type} (f : α → β) {l : List α}
    (h : (l.map f).Nodup) {x y : α} (hx : x ∈ l) (hy : y ∈ l)
    (hxy : f x = f y) : x = y :=
  List.inj_on_of_nodup_map h hx hy hxy

theorem head?_eq_of_pairwise_strict_max {α : Type} (key : α → Nat)
    (l : List α) (a : α) (hs : l.Pairwise (fun x y => key y ≤ key x))
    (ha : a ∈ l) (hmax : ∀ b ∈ l, b ≠ a → key b < key a) :
    l.head? = some a := by
  cases l with
  | nil => cases ha
  | cons x xs =>
      by_cases hx : x = a
      · simp [hx]
      · exfalso
        have hamem : a ∈ xs := by
          rcases List.mem_cons.mp ha with h | h
          · exact absurd h.symm hx
          · exact h
        have h1 : key a ≤ key x :=
          (List.pairwise_cons.mp hs).1 a hamem
        have h2 : key x < key a := hmax x (List.mem_cons_self x xs) hx
        omega

theorem self_mem_setProject (l : List Project) (id : Nat) (v : Project) :
    v ∈ setProject l id v := by
  unfold setProject
  by_cases h : l.any (fun p => p.id = id) = true
  · rw [if_pos h]
    obtain ⟨q, hq, hqid⟩ := List.any_eq_true.mp h
    exact List.mem_map.mpr ⟨q, hq, by simp_all⟩
  · rw [if_neg h]
    exact List.mem_append_right _ (List.mem_singleton.mpr rfl)

theorem mem_setProject_elim (l : List Project) (id : Nat) (v b : Project)
    (hb : b ∈ setProject l id v) : b = v ∨ b ∈ l := by
  unfold setProject at hb
  by_cases h : l.any (fun p => p.id = id) = true
  · rw [if_pos h] at hb
    obtain ⟨q, hq, hfq⟩ := List.mem_map.mp hb
    by_cases hid : q.id = id
    · left
      rw [← hfq, if_pos hid]
    · right
      rw [← hfq, if_neg hid]
      exact hq
  · rw [if_neg h] at hb
    rcases List.mem_append.mp hb with h1 | h1
    · right; exact h1
    · left; exact List.mem_singleton.mp h1

theorem zoomInv_zoomIn (z : Int) (h : zoomInv z) : zoomInv (min (z + 25) 300) := by
  obtain ⟨hdvd, hlo, hhi⟩ := h
  refine ⟨?_, le_min (by omega) (by omega), min_le_right _ _⟩
  rcases min_cases (z + 25) 300 with ⟨heq, _⟩ | ⟨heq, _⟩
  · rw [heq]
    exact dvd_add hdvd (by norm_num)
  · rw [heq]
    norm_num

theorem zoomInv_zoomOut (z : Int) (h : zoomInv z) : zoomInv (max (z - 25) 25) := by
  obtain ⟨hdvd, hlo, hhi⟩ := h
  refine ⟨?_, le_max_right _ _, max_le (by omega) (by omega)⟩
  rcases max_cases (z - 25) 25 with ⟨heq, _⟩ | ⟨heq, _⟩
  · rw [heq]
    exact dvd_sub hdvd (by norm_num)
  · rw [heq]

theorem zoomInv_hundred : zoomInv 100 :=
  ⟨by norm_num, by norm_num, by norm_num⟩

theorem nodup_map_filter {α β : Type} (f : α → β) (p : α → Bool) (l : List α)
    (hn : (l.map f).Nodup) : ((l.filter p).map f).Nodup :=
  hn.sublist (List.Sublist.map f (List.filter_sublist l))

/-! ## Per-operation agreement of the two backends -/

theorem memGetProject_eq_db (s : Store) (id : Nat) :
    memGetProject s id = dbGetProject s id := by
  rw [memGetProject, dbGetProject, head?_take_one, ← find?_eq_filter_head?]

theorem memGetDiagram_eq_db (s : Store) (id : Nat) :
    memGetDiagram s id = dbGetDiagram s id := by
  rw [memGetDiagram, dbGetDiagram, head?_take_one, ← find?_eq_filter_head?]

theorem memCreateProject_eq_db (s : Store) (data : InsertProject) (now : Nat)
    (hb : ∀ p ∈ s.projects, p.id < s.nextProjectId) :
    memCreateProject s data now = dbCreateProject s data now := by
  have hany : s.projects.any (fun p => p.id = s.nextProjectId) = false := by
    rw [List.any_eq_false]
    intro p hp
    have := hb p hp
    simp
    omega
  simp [memCreateProject, dbCreateProject, setProject, hany]

theorem memCreateDiagram_eq_db (s : Store) (data : InsertDiagram) (now : Nat)
    (hb : ∀ d ∈ s.diagrams, d.id < s.nextDiagramId) :
    memCreateDiagram s data now = dbCreateDiagram s data now := by
  have hany : s.diagrams.any (fun d => d.id = s.nextDiagramId) = false := by
    rw [List.any_eq_false]
    intro d hd
    have := hb d hd
    simp
    omega
  simp [memCreateDiagram, dbCreateDiagram, setDiagram, hany]

theorem memUpdateProject_eq_db (s : Store) (id : Nat) (u : ProjectUpdate)
    (hn : (s.projects.map Project.id).Nodup) :
    memUpdateProject s id u = dbUpdateProject s id u := by
  cases hf : s.projects.find? (fun p => p.id = id) with
  | none =>
      have hall : ∀ p ∈ s.projects, ¬ p.id = id := by
        intro p hp
        simpa using List.find?_eq_none.mp hf p hp
      have hrows : s.projects.map
          (fun p => if p.id = id then applyProjectUpdate p u else p) =
          s.projects := by
        have h1 : ∀ p ∈ s.projects,
            (if p.id = id then applyProjectUpdate p u else p) = p :=
          fun p hp => if_neg (hall p hp)
        rw [List.map_congr_left h1]
        exact List.map_id' _
      have hfil : s.projects.filter (fun p => p.id = id) = [] :=
        List.head?_eq_none_iff.mp ((find?_eq_filter_head? _ _) ▸ hf)
      simp [memUpdateProject, dbUpdateProject, hf, hrows, hfil]
  | some p =>
      have hpmem : p ∈ s.projects := List.mem_of_find?_eq_some hf
      have hpid : p.id = id := by simpa using List.find?_some hf
      have hany : s.projects.any (fun q => q.id = id) = true :=
        List.any_eq_true.mpr ⟨p, hpmem, by simpa using hpid⟩
      have hmapeq : s.projects.map
          (fun q => if q.id = id then applyProjectUpdate p u else q) =
          s.projects.map
          (fun q => if q.id = id then applyProjectUpdate q u else q) := by
        apply List.map_congr_left
        intro q hq
        by_cases hqid : q.id = id
        · rw [if_pos hqid, if_pos hqid,
            key_inj_of_nodup Project.id hn hq hpmem (by rw [hqid, hpid])]
        · rw [if_neg hqid, if_neg hqid]
      have hret : ((s.projects.filter (fun q => q.id = id)).map
          (fun q => applyProjectUpdate q u)).head? =
          some (applyProjectUpdate p u) := by
        rw [List.head?_map, ← find?_eq_filter_head?, hf]
        rfl
      simp [memUpdateProject, dbUpdateProject, hf, setProject, hany,
        hmapeq, hret]

theorem memUpdateDiagram_eq_db (s : Store) (id : Nat) (u : DiagramUpdate)
    (hn : (s.diagrams.map Diagram.id).Nodup) :
    memUpdateDiagram s id u = dbUpdateDiagram s id u := by
  cases hf : s.diagrams.find? (fun d => d.id = id) with
  | none =>
      have hall : ∀ d ∈ s.diagrams, ¬ d.id = id := by
        intro d hd
        simpa using List.find?_eq_none.mp hf d hd
      have hrows : s.diagrams.map
          (fun d => if d.id = id then applyDiagramUpdate d u else d) =
          s.diagrams := by
        have h1 : ∀ d ∈ s.diagrams,
            (if d.id = id then applyDiagramUpdate d u else d) = d :=
          fun d hd => if_neg (hall d hd)
        rw [List.map_congr_left h1]
        exact List.map_id' _
      have hfil : s.diagrams.filter (fun d => d.id = id) = [] :=
        List.head?_eq_none_iff.mp ((find?_eq_filter_head? _ _) ▸ hf)
      simp [memUpdateDiagram, dbUpdateDiagram, hf, hrows, hfil]
  | some d =>
      have hdmem : d ∈ s.diagrams := List.mem_of_find?_eq_some hf
      have hdid : d.id = id := by simpa using List.find?_some hf
      have hany : s.diagrams.any (fun e => e.id = id) = true :=
        List.any_eq_true.mpr ⟨d, hdmem, by simpa using hdid⟩
      have hmapeq : s.diagrams.map
          (fun e => if e.id = id then applyDiagramUpdate d u else e) =
          s.diagrams.map
          (fun e => if e.id = id then applyDiagramUpdate e u else e) := by
        apply List.map_congr_left
        intro e he
        by_cases heid : e.id = id
        · rw [if_pos heid, if_pos heid,
            key_inj_of_nodup Diagram.id hn he hdmem (by rw [heid, hdid])]
        · rw [if_neg heid, if_neg heid]
      have hret : ((s.diagrams.filter (fun e => e.id = id)).map
          (fun e => applyDiagramUpdate e u)).head? =
          some (applyDiagramUpdate d u) := by
        rw [List.head?_map, ← find?_eq_filter_head?, hf]
        rfl
      simp [memUpdateDiagram, dbUpdateDiagram, hf, setDiagram, hany,
        hmapeq, hret]

theorem memDeleteProject_eq_db (s : Store) (id : Nat)
    (hc : cascadeSafe s (Op.deleteProject id) = true) :
    memDeleteProject s id = dbDeleteProject s id := by
  rw [cascadeSafe, Bool.or_eq_true] at hc
  cases hdel : s.projects.any (fun p => p.id = id) with
  | true =>
      have hflag : decide
          (0 < (s.projects.filter (fun p => p.id = id)).length) = true := by
        rw [decide_pos_filter_length]
        exact hdel
      simp [memDeleteProject, dbDeleteProject, hdel, hflag]
  | false =>
      rcases hc with h1 | h1
      · rw [hdel] at h1
        cases h1
      · have hdiag : s.diagrams.filter (fun d => !decide (d.projectId = id)) =
            s.diagrams := by
          rw [List.filter_eq_self]
          intro d hd
          simpa using List.all_eq_true.mp h1 d hd
        have hflag : decide
            (0 < (s.projects.filter (fun p => p.id = id)).length) = false := by
          rw [decide_pos_filter_length]
          exact hdel
        simp [memDeleteProject, dbDeleteProject, hdel, hflag, hdiag]

theorem memDeleteDiagram_eq_db (s : Store) (id : Nat) :
    memDeleteDiagram s id = dbDeleteDiagram s id := by
  rw [memDeleteDiagram, dbDeleteDiagram, decide_pos_filter_length]

/-! ## Preservation of well-formedness by MemStorage calls -/

theorem wf_memStep (s : Store) (op : Op) (hwf : s.wf) :
    (memStep s op).1.wf := by
  obtain ⟨hbp, hbd, hnp, hnd⟩ := hwf
  cases op with
  | getProject id => exact ⟨hbp, hbd, hnp, hnd⟩
  | getAllProjects => exact ⟨hbp, hbd, hnp, hnd⟩
  | getDiagram id => exact ⟨hbp, hbd, hnp, hnd⟩
  | getDiagramsByProject pid => exact ⟨hbp, hbd, hnp, hnd⟩
  | createProject data now =>
      have hany : s.projects.any (fun p => p.id = s.nextProjectId) = false := by
        rw [List.any_eq_false]
        intro p hp
        have := hbp p hp
        simp
        omega
      show Store.wf _
      simp only [memStep, memCreateProject, setProject, hany,
        Bool.false_eq_true, if_false]
      refine ⟨?_, hbd, ?_, hnd⟩
      · intro p hp
        rcases List.mem_append.mp hp with h | h
        · exact Nat.lt_succ_of_lt (hbp p h)
        · rw [List.mem_singleton.mp h]
          exact Nat.lt_succ_self _
      · rw [List.map_append]
        rw [List.nodup_append]
        refine ⟨hnp, List.nodup_singleton _, ?_⟩
        intro x hx
        obtain ⟨p, hp, rfl⟩ := List.mem_map.mp hx
        have := hbp p hp
        simp
        omega
  | createDiagram data now =>
      have hany : s.diagrams.any (fun d => d.id = s.nextDiagramId) = false := by
        rw [List.any_eq_false]
        intro d hd
        have := hbd d hd
        simp
        omega
      show Store.wf _
      simp only [memStep, memCreateDiagram, setDiagram, hany,
        Bool.false_eq_true, if_false]
      refine ⟨hbp, ?_, hnp, ?_⟩
      · intro d hd
        rcases List.mem_append.mp hd with h | h
        · exact Nat.lt_succ_of_lt (hbd d h)
        · rw [List.mem_singleton.mp h]
          exact Nat.lt_succ_self _
      · rw [List.map_append]
        rw [List.nodup_append]
        refine ⟨hnd, List.nodup_singleton _, ?_⟩
        intro x hx
        obtain ⟨d, hd, rfl⟩ := List.mem_map.mp hx
        have := hbd d hd
        simp
        omega
  | updateProject id u =>
      show ((memUpdateProject s id u).1).wf
      cases hf : s.projects.find? (fun p => p.id = id) with
      | none =>
          simp only [memUpdateProject, hf]
          exact ⟨hbp, hbd, hnp, hnd⟩
      | some p =>
          have hpmem : p ∈ s.projects := List.mem_of_find?_eq_some hf
          have hpid : p.id = id := by simpa using List.find?_some hf
          have hany : s.projects.any (fun q => q.id = id) = true :=
            List.any_eq_true.mpr ⟨p, hpmem, by simpa using hpid⟩
          simp only [memUpdateProject, hf, setProject, hany, if_true]
          have hids : (s.projects.map (fun q =>
              if q.id = id then applyProjectUpdate p u else q)).map
              Project.id = s.projects.map Project.id := by
            rw [List.map_map]
            apply List.map_congr_left
            intro q hq
            by_cases hqid : q.id = id
            · simp [Function.comp, hqid, applyProjectUpdate, hpid]
            · simp [Function.comp, hqid]
          refine ⟨?_, hbd, ?_, hnd⟩
          · intro q hq
            obtain ⟨q0, hq0, rfl⟩ := List.mem_map.mp hq
            by_cases hqid : q0.id = id
            · rw [if_pos hqid]
              have : (applyProjectUpdate p u).id = p.id := rfl
              rw [this]
              exact hbp p hpmem
            · rw [if_neg hqid]
              exact hbp q0 hq0
          · rw [hids]
            exact hnp
  | updateDiagram id u =>
      show ((memUpdateDiagram s id u).1).wf
      cases hf : s.diagrams.find? (fun d => d.id = id) with
      | none =>
          simp only [memUpdateDiagram, hf]
          exact ⟨hbp, hbd, hnp, hnd⟩
      | some d =>
          have hdmem : d ∈ s.diagrams := List.mem_of_find?_eq_some hf
          have hdid : d.id = id := by simpa using List.find?_some hf
          have hany : s.diagrams.any (fun e => e.id = id) = true :=
            List.any_eq_true.mpr ⟨d, hdmem, by simpa using hdid⟩
          simp only [memUpdateDiagram, hf, setDiagram, hany, if_true]
          have hids : (s.diagrams.map (fun e =>
              if e.id = id then applyDiagramUpdate d u else e)).map
              Diagram.id = s.diagrams.map Diagram.id := by
            rw [List.map_map]
            apply List.map_congr_left
            intro e he
            by_cases heid : e.id = id
            · simp [Function.comp, heid, applyDiagramUpdate, hdid]
            · simp [Function.comp, heid]
          refine ⟨hbp, ?_, hnp, ?_⟩
          · intro e he
            obtain ⟨e0, he0, rfl⟩ := List.mem_map.mp he
            by_cases heid : e0.id = id
            · rw [if_pos heid]
              have : (applyDiagramUpdate d u).id = d.id := rfl
              rw [this]
              exact hbd d hdmem
            · rw [if_neg heid]
              exact hbd e0 he0
          · rw [hids]
            exact hnd
  | deleteProject id =>
      show ((memDeleteProject s id).1).wf
      cases hdel : s.projects.any (fun p => p.id = id) with
      | true =>
          simp only [memDeleteProject, hdel, if_true]
          exact ⟨fun p hp => hbp p (List.mem_of_mem_filter hp),
            fun d hd => hbd d (List.mem_of_mem_filter hd),
            nodup_map_filter _ _ _ hnp,
            nodup_map_filter _ _ _ hnd⟩
      | false =>
          simp only [memDeleteProject, hdel, Bool.false_eq_true, if_false]
          exact ⟨fun p hp => hbp p (List.mem_of_mem_filter hp), hbd,
            nodup_map_filter _ _ _ hnp, hnd⟩
  | deleteDiagram id =>
      exact ⟨hbp, fun d hd => hbd d (List.mem_of_mem_filter hd), hnp,
        nodup_map_filter _ _ _ hnd⟩

theorem memStep_eq_dbStep (s : Store) (op : Op) (hwf : s.wf)
    (hc : cascadeSafe s op = true) : memStep s op = dbStep s op := by
  obtain ⟨hbp, hbd, hnp, hnd⟩ := hwf
  cases op with
  | createProject data now =>
      simp [memStep, dbStep, memCreateProject_eq_db s data now hbp]
  | getProject id => simp [memStep, dbStep, memGetProject_eq_db]
  | getAllProjects => rfl
  | updateProject id u =>
      simp [memStep, dbStep, memUpdateProject_eq_db s id u hnp]
  | deleteProject id =>
      simp [memStep, dbStep, memDeleteProject_eq_db s id hc]
  | createDiagram data now =>
      simp [memStep, dbStep, memCreateDiagram_eq_db s data now hbd]
  | getDiagram id => simp [memStep, dbStep, memGetDiagram_eq_db]
  | getDiagramsByProject pid => rfl
  | updateDiagram id u =>
      simp [memStep, dbStep, memUpdateDiagram_eq_db s id u hnd]
  | deleteDiagram id => simp [memStep, dbStep, memDeleteDiagram_eq_db]

theorem wf_init : Store.init.wf := by
  refine ⟨?_, ?_, ?_, ?_⟩ <;> simp [Store.init]

theorem runMem_eq_runDb_of_safe (ops : List Op) : ∀ s : Store, s.wf →
    safeTrace s ops = true → runMem s ops = runDb s ops := by
  induction ops with
  | nil => intro s _ _; rfl
  | cons op ops ih =>
      intro s hwf hsafe
      simp only [safeTrace, Bool.and_eq_true] at hsafe
      have hstep := memStep_eq_dbStep s op hwf hsafe.1
      show (memStep s op).2 :: runMem (memStep s op).1 ops =
        (dbStep s op).2 :: runDb (dbStep s op).1 ops
      rw [← hstep]
      exact congrArg _ (ih (memStep s op).1 (wf_memStep s op hwf) hsafe.2)

/-! ## Claim C4: behaviour on a missing id -/

/-- C4: for an id absent from the backend, `getProject`/`getDiagram` return
the absence value, `updateProject`/`updateDiagram` return the absence value
without mutating any stored record, and `deleteProject`/`deleteDiagram`
return `false`, on both backends.  (The embedding is total: none of these
operations has an exceptional outcome.) -/
theorem missing_id_behaviour (s : Store) (pid did : Nat)
    (u : ProjectUpdate) (v : DiagramUpdate)
    (hp : ∀ p ∈ s.projects, p.id ≠ pid)
    (hd : ∀ d ∈ s.diagrams, d.id ≠ did) :
    memGetProject s pid = none ∧ dbGetProject s pid = none ∧
    memGetDiagram s did = none ∧ dbGetDiagram s did = none ∧
    memUpdateProject s pid u = (s, none) ∧
    dbUpdateProject s pid u = (s, none) ∧
    memUpdateDiagram s did v = (s, none) ∧
    dbUpdateDiagram s did v = (s, none) ∧
    (memDeleteProject s pid).2 = false ∧
    (dbDeleteProject s pid).2 = false ∧
    (memDeleteDiagram s did).2 = false ∧
    (dbDeleteDiagram s did).2 = false := by
  have hfp : s.projects.find? (fun p => p.id = pid) = none :=
    List.find?_eq_none.mpr (fun x hx => by simpa using hp x hx)
  have hfd : s.diagrams.find? (fun d => d.id = did) = none :=
    List.find?_eq_none.mpr (fun x hx => by simpa using hd x hx)
  have hfilp : s.projects.filter (fun p => p.id = pid) = [] :=
    List.head?_eq_none_iff.mp ((find?_eq_filter_head? _ _) ▸ hfp)
  have hfild : s.diagrams.filter (fun d => d.id = did) = [] :=
    List.head?_eq_none_iff.mp ((find?_eq_filter_head? _ _) ▸ hfd)
  have hrows : s.projects.map
      (fun p => if p.id = pid then applyProjectUpdate p u else p) =
      s.projects := by
    have h1 : ∀ p ∈ s.projects,
        (if p.id = pid then applyProjectUpdate p u else p) = p :=
      fun p hmem => if_neg (hp p hmem)
    rw [List.map_congr_left h1]
    exact List.map_id' s.projects
  have hrowsd : s.diagrams.map
      (fun d => if d.id = did then applyDiagramUpdate d v else d) =
      s.diagrams := by
    have h1 : ∀ d ∈ s.diagrams,
        (if d.id = did then applyDiagramUpdate d v else d) = d :=
      fun d hmem => if_neg (hd d hmem)
    rw [List.map_congr_left h1]
    exact List.map_id' s.diagrams
  have hanyp : s.projects.any (fun p => p.id = pid) = false := by
    rw [List.any_eq_false]
    intro x hx
    simpa using hp x hx
  have hanyd : s.diagrams.any (fun d => d.id = did) = false := by
    rw [List.any_eq_false]
    intro x hx
    simpa using hd x hx
  refine ⟨hfp, ?_, hfd, ?_, ?_, ?_, ?_, ?_, ?_, ?_, ?_, ?_⟩
  · rw [dbGetProject, head?_take_one, ← find?_eq_filter_head?]; exact hfp
  · rw [dbGetDiagram, head?_take_one, ← find?_eq_filter_head?]; exact hfd
  · simp [memUpdateProject, hfp]
  · simp [dbUpdateProject, hrows, hfilp]
  · simp [memUpdateDiagram, hfd]
  · simp [dbUpdateDiagram, hrowsd, hfild]
  · simp [memDeleteProject, hanyp]
  · simp [dbDeleteProject, hfilp]
  · simp [memDeleteDiagram, hanyd]
  · simp [dbDeleteDiagram, hfild]

/-- Witness for `missing_id_behaviour` at a concrete one-project,
one-diagram backend state and the absent ids 7 and 9. -/
theorem missing_id_behaviour_witness :
    ((∀ p ∈ (⟨[⟨1, "Demo", none, 5⟩],
        [⟨1, 1, "Flow", "mermaid", "svg", "c", "i", 6⟩], 2, 2⟩ :
        Store).projects, p.id ≠ 7) ∧
      (∀ d ∈ (⟨[⟨1, "Demo", none, 5⟩],
        [⟨1, 1, "Flow", "mermaid", "svg", "c", "i", 6⟩], 2, 2⟩ :
        Store).diagrams, d.id ≠ 9)) ∧
    memGetProject
      ⟨[⟨1, "Demo", none, 5⟩],
        [⟨1, 1, "Flow", "mermaid", "svg", "c", "i", 6⟩], 2, 2⟩ 7 = none ∧
    (memDeleteProject
      ⟨[⟨1, "Demo", none, 5⟩],
        [⟨1, 1, "Flow", "mermaid", "svg", "c", "i", 6⟩], 2, 2⟩ 7).2 = false :=
  ⟨⟨by decide, by decide⟩,
    (missing_id_behaviour _ 7 9 ⟨none, none⟩ ⟨none, none, none, none, none, none⟩
      (by decide) (by decide)).1,
    (missing_id_behaviour _ 7 9 ⟨none, none⟩ ⟨none, none, none, none, none, none⟩
      (by decide) (by decide)).2.2.2.2.2.2.2.2.1⟩

/-! ## Claim C3: partial update is a shallow merge with frame -/

/-- C3: updating a stored project (resp. diagram) returns the merged record:
each field named in the payload takes the supplied value, each omitted field
— including `id` and `createdAt`, which the payload cannot name, and
`projectId` for diagrams when omitted — keeps its prior stored value. -/
theorem update_partial_merge (s : Store) (pid did : Nat)
    (u : ProjectUpdate) (v : DiagramUpdate) (p : Project) (d : Diagram)
    (hp : memGetProject s pid = some p) (hd : memGetDiagram s did = some d) :
    (∃ m, (memUpdateProject s pid u).2 = some m ∧
      (dbUpdateProject s pid u).2 = some m ∧
      m.name = u.name.getD p.name ∧
      m.description = u.description.getD p.description ∧
      m.id = p.id ∧ m.createdAt = p.createdAt) ∧
    (∃ n, (memUpdateDiagram s did v).2 = some n ∧
      (dbUpdateDiagram s did v).2 = some n ∧
      n.projectId = v.projectId.getD d.projectId ∧
      n.name = v.name.getD d.name ∧
      n.diagramType = v.diagramType.getD d.diagramType ∧
      n.format = v.format.getD d.format ∧
      n.code = v.code.getD d.code ∧
      n.imageData = v.imageData.getD d.imageData ∧
      n.id = d.id ∧ n.createdAt = d.createdAt) := by
  rw [memGetProject] at hp
  rw [memGetDiagram] at hd
  constructor
  · refine ⟨applyProjectUpdate p u, ?_, ?_, rfl, rfl, rfl, rfl⟩
    · simp [memUpdateProject, hp]
    · have : ((s.projects.filter (fun q => q.id = pid)).map
          (fun q => applyProjectUpdate q u)).head? =
          some (applyProjectUpdate p u) := by
        rw [List.head?_map, ← find?_eq_filter_head?, hp]
        rfl
      simpa [dbUpdateProject] using this
  · refine ⟨applyDiagramUpdate d v, ?_, ?_, rfl, rfl, rfl, rfl, rfl, rfl, rfl, rfl⟩
    · simp [memUpdateDiagram, hd]
    · have : ((s.diagrams.filter (fun e => e.id = did)).map
          (fun e => applyDiagramUpdate e v)).head? =
          some (applyDiagramUpdate d v) := by
        rw [List.head?_map, ← find?_eq_filter_head?, hd]
        rfl
      simpa [dbUpdateDiagram] using this

/-- Witness for `update_partial_merge`: update the description of the
stored project 1 and the code of the stored diagram 1. -/
theorem update_partial_merge_witness :
    memGetProject
      ⟨[⟨1, "Demo", none, 5⟩],
        [⟨1, 1, "Flow", "mermaid", "svg", "c", "i", 6⟩], 2, 2⟩ 1 =
      some ⟨1, "Demo", none, 5⟩ ∧
    ((memUpdateProject
      ⟨[⟨1, "Demo", none, 5⟩],
        [⟨1, 1, "Flow", "mermaid", "svg", "c", "i", 6⟩], 2, 2⟩ 1
      ⟨none, some (some "x")⟩).2 = some ⟨1, "Demo", some "x", 5⟩) := by
  have h := update_partial_merge
    ⟨[⟨1, "Demo", none, 5⟩],
      [⟨1, 1, "Flow", "mermaid", "svg", "c", "i", 6⟩], 2, 2⟩ 1 1
    ⟨none, some (some "x")⟩ ⟨none, none, none, none, some "new", none⟩
    ⟨1, "Demo", none, 5⟩ ⟨1, 1, "Flow", "mermaid", "svg", "c", "i", 6⟩
    (by decide) (by decide)
  obtain ⟨⟨m, hm1, _, hm3, hm4, hm5, hm6⟩, _⟩ := h
  refine ⟨by decide, ?_⟩
  rw [hm1]
  congr 1
  cases m
  simp_all

/-! ## Claim C10: blank code short-circuits Generate -/

/-- C10: on both editor pages, triggering Generate with whitespace-only code
issues no request to the rendering service, leaves the whole workflow state
unchanged, and surfaces only an error message. -/
theorem blank_code_short_circuit (s : GenState) (t : PDState)
    (r1 r2 : RenderResult)
    (hs : blankCode s.code = true) (ht : blankCode t.code = true) :
    genHandleGenerate s r1 = (s, false, some "Please enter diagram code") ∧
    pdHandleGenerate t r2 = (t, false, some "Please enter diagram code") := by
  constructor
  · simp [genHandleGenerate, hs]
  · simp [pdHandleGenerate, ht]

/-- Witness for `blank_code_short_circuit`: whitespace-only draft on the
stand-alone page, empty draft on the per-project page, against a rendering
service that would succeed. -/
theorem blank_code_short_circuit_witness :
    blankCode ({ GenState.init with code := "  \n " } : GenState).code = true ∧
    genHandleGenerate { GenState.init with code := "  \n " }
      (Except.ok "blob:img") =
      ({ GenState.init with code := "  \n " }, false,
        some "Please enter diagram code") :=
  ⟨by decide,
    (blank_code_short_circuit { GenState.init with code := "  \n " }
      { PDState.init with code := "" } (Except.ok "blob:img")
      (Except.ok "blob:img") (by decide) (by decide)).1⟩

/-! ## Claim C6: render failure preserves workflow state -/

/-- C6: when the render call fails (non-ok response or network error), both
editor pages leave every workflow field — drafted code, preview image,
selection, zoom and the rest — exactly as before the call and surface the
error to the user. -/
theorem render_failure_keeps_state (s : GenState) (t : PDState)
    (e1 e2 : String)
    (hs : blankCode s.code = false) (ht : blankCode t.code = false) :
    genHandleGenerate s (Except.error e1) = (s, true, some e1) ∧
    pdHandleGenerate t (Except.error e2) = (t, true, some e2) := by
  constructor
  · simp [genHandleGenerate, hs]
  · simp [pdHandleGenerate, ht]

/-- Witness for `render_failure_keeps_state` at the initial states of both
pages and a failing rendering service. -/
theorem render_failure_keeps_state_witness :
    blankCode GenState.init.code = false ∧
    genHandleGenerate GenState.init
      (Except.error "Failed to generate diagram") =
      (GenState.init, true, some "Failed to generate diagram") :=
  ⟨by decide,
    (render_failure_keeps_state GenState.init PDState.init
      "Failed to generate diagram" "Failed to generate diagram"
      (by decide) (by decide)).1⟩

/-! ## Claim C8: storage selector -/

/-- C8 counterexample: with `DATABASE_URL` declared but empty the selector
does not fail fast — it silently constructs the volatile backend. -/
theorem empty_connection_string_counterexample :
    createStorage (some "") = Except.ok StorageChoice.volatile ∧
    (some "" : Option String) ≠ none := by
  exact ⟨rfl, by simp⟩

/-- C8 amended: the selector never fails; it constructs the durable backend
exactly when the connection string is present and nonempty (truthy), and the
volatile backend when the string is absent or empty.  The fatal guard of the
db module cannot fire through the selector, because that module is only
loaded when the string is truthy. -/
theorem storage_selector_behaviour (url : Option String) :
    createStorage url = Except.ok
      (if envTruthy url then StorageChoice.durable else StorageChoice.volatile) := by
  cases h : envTruthy url <;> simp [createStorage, dbModule, h, Except.map]

/-! ## Claim C2: deleteProject cascades -/

/-- C2: deleting a stored project succeeds (`true`), after which the
project's diagram list is empty and every previously associated diagram id
resolves to the absence value, on both backends. -/
theorem delete_project_cascades (s : Store) (pid : Nat) (p : Project)
    (hmem : p ∈ s.projects) (hid : p.id = pid)
    (hnd : (s.diagrams.map Diagram.id).Nodup) :
    (memDeleteProject s pid).2 = true ∧
    memGetDiagramsByProject (memDeleteProject s pid).1 pid = [] ∧
    (∀ d ∈ s.diagrams, d.projectId = pid →
      memGetDiagram (memDeleteProject s pid).1 d.id = none) ∧
    (dbDeleteProject s pid).2 = true ∧
    dbGetDiagramsByProject (dbDeleteProject s pid).1 pid = [] ∧
    (∀ d ∈ s.diagrams, d.projectId = pid →
      dbGetDiagram (dbDeleteProject s pid).1 d.id = none) := by
  have hany : s.projects.any (fun q => q.id = pid) = true :=
    List.any_eq_true.mpr ⟨p, hmem, by simpa using hid⟩
  have hnil : (s.diagrams.filter (fun d => d.projectId ≠ pid)).filter
      (fun d => d.projectId = pid) = [] := by
    rw [List.eq_nil_iff_forall_not_mem]
    intro d hdm
    have h1 := List.mem_filter.mp hdm
    have h2 := List.mem_filter.mp h1.1
    simp at h1 h2
    exact h2.2 h1.2
  have hfind : ∀ d ∈ s.diagrams, d.projectId = pid →
      (s.diagrams.filter (fun e => e.projectId ≠ pid)).find?
        (fun e => e.id = d.id) = none := by
    intro d hd hdp
    apply List.find?_eq_none.mpr
    intro e he
    have h1 := List.mem_filter.mp he
    simp only [decide_eq_true_eq]
    intro hide
    have : e = d := key_inj_of_nodup Diagram.id hnd h1.1 hd hide
    rw [this] at h1
    simp [hdp] at h1
  refine ⟨?_, ?_, ?_, ?_, ?_, ?_⟩
  · simp [memDeleteProject, hany]
  · show sortDiagrams _ = []
    rw [show (memDeleteProject s pid).1.diagrams =
      s.diagrams.filter (fun d => d.projectId ≠ pid) by
        simp [memDeleteProject, hany]]
    rw [hnil]
    rfl
  · intro d hd hdp
    show List.find? _ _ = none
    rw [show (memDeleteProject s pid).1.diagrams =
      s.diagrams.filter (fun d => d.projectId ≠ pid) by
        simp [memDeleteProject, hany]]
    exact hfind d hd hdp
  · show decide (0 < (s.projects.filter (fun q => q.id = pid)).length) = true
    rw [decide_pos_filter_length]
    exact hany
  · show sortDiagrams _ = []
    rw [show (dbDeleteProject s pid).1.diagrams =
      s.diagrams.filter (fun d => d.projectId ≠ pid) from rfl]
    rw [hnil]
    rfl
  · intro d hd hdp
    show ((List.filter _ _).take 1).head? = none
    rw [head?_take_one, ← find?_eq_filter_head?]
    exact hfind d hd hdp

/-- Witness for `delete_project_cascades`: project 1 owns diagrams 1 and 2,
diagram 3 belongs to project 2; delete project 1. -/
theorem delete_project_cascades_witness :
    ((⟨1, "Demo", none, 5⟩ : Project) ∈
      (⟨[⟨1, "Demo", none, 5⟩],
        [⟨1, 1, "A", "mermaid", "svg", "c", "i", 6⟩,
         ⟨2, 1, "B", "graphviz", "png", "c2", "i2", 7⟩,
         ⟨3, 2, "C", "bpmn", "svg", "c3", "i3", 8⟩], 2, 4⟩ :
        Store).projects) ∧
    (memDeleteProject
      ⟨[⟨1, "Demo", none, 5⟩],
        [⟨1, 1, "A", "mermaid", "svg", "c", "i", 6⟩,
         ⟨2, 1, "B", "graphviz", "png", "c2", "i2", 7⟩,
         ⟨3, 2, "C", "bpmn", "svg", "c3", "i3", 8⟩], 2, 4⟩ 1).2 = true ∧
    memGetDiagramsByProject
      (memDeleteProject
        ⟨[⟨1, "Demo", none, 5⟩],
          [⟨1, 1, "A", "mermaid", "svg", "c", "i", 6⟩,
           ⟨2, 1, "B", "graphviz", "png", "c2", "i2", 7⟩,
           ⟨3, 2, "C", "bpmn", "svg", "c3", "i3", 8⟩], 2, 4⟩ 1).1 1 = [] := by
  have h := delete_project_cascades
    ⟨[⟨1, "Demo", none, 5⟩],
      [⟨1, 1, "A", "mermaid", "svg", "c", "i", 6⟩,
       ⟨2, 1, "B", "graphviz", "png", "c2", "i2", 7⟩,
       ⟨3, 2, "C", "bpmn", "svg", "c3", "i3", 8⟩], 2, 4⟩ 1
    ⟨1, "Demo", none, 5⟩ (by decide) (by decide) (by decide)
  exact ⟨by decide, h.1, h.2.1⟩

/-! ## Claim C9: DbStorage cascades before the existence check -/

/-- C9: on the durable backend, `deleteProject` of an id with no matching
project returns `false` yet still deletes every diagram carrying that
`projectId`; the volatile backend instead returns `false` leaving the state
completely unchanged. -/
theorem db_delete_absent_project_still_cascades (s : Store) (pid : Nat)
    (hab : ∀ p ∈ s.projects, p.id ≠ pid) :
    (dbDeleteProject s pid).2 = false ∧
    (dbDeleteProject s pid).1.diagrams =
      s.diagrams.filter (fun d => d.projectId ≠ pid) ∧
    memDeleteProject s pid = (s, false) ∧
    (∀ d ∈ s.diagrams, d.projectId = pid → (dbDeleteProject s pid).1 ≠ s) := by
  have hfilp : s.projects.filter (fun q => q.id = pid) = [] := by
    rw [List.eq_nil_iff_forall_not_mem]
    intro q hq
    have h1 := List.mem_filter.mp hq
    exact hab q h1.1 (by simpa using h1.2)
  have hany : s.projects.any (fun q => q.id = pid) = false := by
    rw [List.any_eq_false]
    intro q hq
    simpa using hab q hq
  have hkeep : s.projects.filter (fun q => !decide (q.id = pid)) =
      s.projects := by
    rw [List.filter_eq_self]
    intro q hq
    simpa using hab q hq
  refine ⟨?_, rfl, ?_, ?_⟩
  · show decide (0 < (s.projects.filter (fun q => q.id = pid)).length) = false
    rw [hfilp]
    rfl
  · simp [memDeleteProject, hany, hkeep]
  · intro d hd hdp heq
    have hdiag := congrArg Store.diagrams heq
    rw [show (dbDeleteProject s pid).1.diagrams =
      s.diagrams.filter (fun e => e.projectId ≠ pid) from rfl] at hdiag
    have : d ∈ s.diagrams.filter (fun e => e.projectId ≠ pid) := by
      rw [hdiag]; exact hd
    have h1 := List.mem_filter.mp this
    simp [hdp] at h1

/-- Witness for `db_delete_absent_project_still_cascades`: no project has
id 5, one orphaned diagram references projectId 5. -/
theorem db_delete_absent_project_witness :
    (∀ p ∈ (⟨[], [⟨1, 5, "A", "mermaid", "svg", "c", "i", 6⟩], 1, 2⟩ :
      Store).projects, p.id ≠ 5) ∧
    (dbDeleteProject
      ⟨[], [⟨1, 5, "A", "mermaid", "svg", "c", "i", 6⟩], 1, 2⟩ 5).2 = false ∧
    (dbDeleteProject
      ⟨[], [⟨1, 5, "A", "mermaid", "svg", "c", "i", 6⟩], 1, 2⟩ 5).1.diagrams =
      ([⟨1, 5, "A", "mermaid", "svg", "c", "i", 6⟩] : List Diagram).filter
        (fun d => d.projectId ≠ 5) := by
  have h := db_delete_absent_project_still_cascades
    ⟨[], [⟨1, 5, "A", "mermaid", "svg", "c", "i", 6⟩], 1, 2⟩ 5 (by decide)
  exact ⟨by decide, h.1, h.2.1⟩

/-! ## Claim C5: list operations are sorted descending by createdAt -/

/-- C5: `getAllProjects` returns exactly the stored projects and
`getDiagramsByProject` exactly the stored diagrams with the given
`projectId`, both sorted in descending `createdAt` order, and creating a
project whose timestamp is strictly later than all existing ones places it
first in the subsequent list. -/
theorem list_operations_sorted (s : Store) (pid : Nat)
    (data : InsertProject) (t : Nat)
    (hlater : ∀ p ∈ s.projects, p.createdAt < t) :
    (memGetAllProjects s).Perm s.projects ∧
    List.Pairwise projectDesc (memGetAllProjects s) ∧
    (memGetDiagramsByProject s pid).Perm
      (s.diagrams.filter (fun d => d.projectId = pid)) ∧
    List.Pairwise diagramDesc (memGetDiagramsByProject s pid) ∧
    (memGetAllProjects (memCreateProject s data t).1).head? =
      some (memCreateProject s data t).2 := by
  refine ⟨List.perm_insertionSort projectDesc s.projects,
    List.sorted_insertionSort projectDesc s.projects,
    List.perm_insertionSort diagramDesc _,
    List.sorted_insertionSort diagramDesc _, ?_⟩
  have hperm : (memGetAllProjects (memCreateProject s data t).1).Perm
      (setProject s.projects s.nextProjectId
        ⟨s.nextProjectId, data.name, data.description, t⟩) :=
    List.perm_insertionSort projectDesc _
  apply head?_eq_of_pairwise_strict_max (fun p => p.createdAt)
  · exact List.sorted_insertionSort projectDesc _
  · exact hperm.mem_iff.mpr (self_mem_setProject _ _ _)
  · intro b hb hbne
    have hb2 := hperm.mem_iff.mp hb
    rcases mem_setProject_elim _ _ _ _ hb2 with h1 | h1
    · exact absurd h1 hbne
    · exact hlater b h1

/-- Witness for `list_operations_sorted`: two stored projects with
timestamps 5 and 9, two diagrams of project 1, then a creation at time 20. -/
theorem list_operations_sorted_witness :
    (∀ p ∈ (⟨[⟨1, "Old", none, 5⟩, ⟨2, "New", some "x", 9⟩],
        [⟨1, 1, "A", "mermaid", "svg", "c", "i", 6⟩,
         ⟨2, 1, "B", "graphviz", "png", "c2", "i2", 8⟩], 3, 3⟩ :
        Store).projects, p.createdAt < 20) ∧
    (memGetAllProjects
      (memCreateProject
        ⟨[⟨1, "Old", none, 5⟩, ⟨2, "New", some "x", 9⟩],
          [⟨1, 1, "A", "mermaid", "svg", "c", "i", 6⟩,
           ⟨2, 1, "B", "graphviz", "png", "c2", "i2", 8⟩], 3, 3⟩
        ⟨"Fresh", none⟩ 20).1).head? =
      some (memCreateProject
        ⟨[⟨1, "Old", none, 5⟩, ⟨2, "New", some "x", 9⟩],
          [⟨1, 1, "A", "mermaid", "svg", "c", "i", 6⟩,
           ⟨2, 1, "B", "graphviz", "png", "c2", "i2", 8⟩], 3, 3⟩
        ⟨"Fresh", none⟩ 20).2 :=
  ⟨by decide,
    (list_operations_sorted
      ⟨[⟨1, "Old", none, 5⟩, ⟨2, "New", some "x", 9⟩],
        [⟨1, 1, "A", "mermaid", "svg", "c", "i", 6⟩,
         ⟨2, 1, "B", "graphviz", "png", "c2", "i2", 8⟩], 3, 3⟩ 1
      ⟨"Fresh", none⟩ 20 (by decide)).2.2.2.2⟩

/-! ## Claim C7: zoom behaviour -/

/-- C7 counterexample: a successful render loads a new preview image into
the workflow while the zoom level stays at 150 — zoom is NOT reset to 100
whenever a new preview is loaded. -/
theorem zoom_not_reset_on_render_counterexample :
    ((pdHandleGenerate
      { PDState.init with zoom := 150, generatedImage := some "blob:old" }
      (Except.ok "blob:new")).1.generatedImage = some "blob:new") ∧
    ((pdHandleGenerate
      { PDState.init with zoom := 150, generatedImage := some "blob:old" }
      (Except.ok "blob:new")).1.zoom = 150) ∧
    ((pdHandleGenerate
      { PDState.init with zoom := 150, generatedImage := some "blob:old" }
      (Except.ok "blob:new")).1.zoom ≠ 100) := by
  refine ⟨?_, ?_, ?_⟩ <;> decide

/-- C7 amended: zoom starts at 100 on both pages; zoom-in/out/reset keep it
a multiple of 25 clamped to `[25, 300]`; the zoom handlers change no other
workflow field (zoom never affects stored diagram data); and zoom resets to
100 when a preview is hydrated from a persisted diagram (view/edit) or the
workflow is cleared for a new diagram — but not when a render call replaces
the preview. -/
theorem zoom_behaviour (s : GenState) (t : PDState) (d : Diagram)
    (hs : zoomInv s.zoom) (ht : zoomInv t.zoom) :
    GenState.init.zoom = 100 ∧ PDState.init.zoom = 100 ∧
    zoomInv (genHandleZoomIn s).zoom ∧ zoomInv (genHandleZoomOut s).zoom ∧
    zoomInv (genHandleZoomReset s).zoom ∧
    zoomInv (pdHandleZoomIn t).zoom ∧ zoomInv (pdHandleZoomOut t).zoom ∧
    zoomInv (pdHandleZoomReset t).zoom ∧
    genHandleZoomIn s = { s with zoom := (genHandleZoomIn s).zoom } ∧
    genHandleZoomOut s = { s with zoom := (genHandleZoomOut s).zoom } ∧
    genHandleZoomReset s = { s with zoom := (genHandleZoomReset s).zoom } ∧
    pdHandleZoomIn t = { t with zoom := (pdHandleZoomIn t).zoom } ∧
    pdHandleZoomOut t = { t with zoom := (pdHandleZoomOut t).zoom } ∧
    pdHandleZoomReset t = { t with zoom := (pdHandleZoomReset t).zoom } ∧
    (pdHandleViewDiagram t d).zoom = 100 ∧
    (pdHandleEditDiagram t d).zoom = 100 ∧
    (pdHandleAddDiagram t).zoom = 100 := by
  refine ⟨rfl, rfl, zoomInv_zoomIn _ hs, zoomInv_zoomOut _ hs,
    zoomInv_hundred, zoomInv_zoomIn _ ht, zoomInv_zoomOut _ ht,
    zoomInv_hundred, rfl, rfl, rfl, rfl, rfl, rfl, rfl, rfl, rfl⟩

/-- Witness for `zoom_behaviour` at the initial states of both pages. -/
theorem zoom_behaviour_witness :
    zoomInv GenState.init.zoom ∧ zoomInv PDState.init.zoom ∧
    zoomInv (pdHandleZoomIn PDState.init).zoom :=
  ⟨by decide, by decide,
    (zoom_behaviour GenState.init PDState.init
      ⟨1, 1, "A", "mermaid", "svg", "c", "i", 6⟩
      (by decide) (by decide)).2.2.2.2.2.1⟩

/-! ## Claim C1: observable equivalence of the two backends -/

/-- C1 counterexample: starting from fresh backends, create a diagram whose
`projectId` references the nonexistent project 1, call `deleteProject 1`,
then `getDiagram 1`: the volatile backend still returns the diagram, the
durable backend has deleted it — the two backends do not produce the same
observable results for every call sequence. -/
theorem backend_divergence_counterexample :
    runMem Store.init c1DivergeOps ≠ runDb Store.init c1DivergeOps := by
  decide

/-- C1 amended: starting from fresh backends, the volatile and the durable
backend produce identical observable results (returned records, assigned
ids, list ordering, cascade effect, partial-merge behaviour) for every
cascade-safe call sequence — one in which no `deleteProject` targets an
absent project id that stored diagrams still reference.  On that excluded
case the durable backend additionally deletes the orphaned diagrams
(claim C9) while the volatile backend does not. -/
theorem backend_equivalence (ops : List Op)
    (h : safeTrace Store.init ops = true) :
    runMem Store.init ops = runDb Store.init ops :=
  runMem_eq_runDb_of_safe ops Store.init wf_init h

/-- Witness for `backend_equivalence` on a concrete cascade-safe sequence
exercising create/read/update/delete of projects and diagrams, both list
operations and a cascading `deleteProject` of an existing project. -/
theorem backend_equivalence_witness :
    safeTrace Store.init c1SafeOps = true ∧
    runMem Store.init c1SafeOps = runDb Store.init c1SafeOps :=
  ⟨by decide, backend_equivalence c1SafeOps (by decide)⟩

end DiagramGen
